import Mathlib

/-!
Verification of the employee-inventory ledger reconciliation logic of
flashdocker (frontend-next/src/app/(dashboard)/employees/inventory/page.tsx).

Modelling conventions for the shallow embedding of the TypeScript source:
* JS numbers are modelled exactly: quantities as rationals, wrapped in
  JSNum to retain the NaN/Infinity distinction that the code tests with
  Number.isFinite.
* Nullable fields are Option; the JS idioms x || d (falsy fallback) and
  x ?? d (nullish fallback) are jsOr / Option.getD.
* String(x || "") applied to a plain string x is the identity (both
  branches produce x back, the empty string included) and is elided.
* String operations are defined structurally over the character list of
  the string (strUpper, strLower, strTrim, strLt, strLe), so that every
  definition evaluates by kernel reduction. localeCompare on ISO-8601
  timestamp strings is modelled as code-point lexicographic comparison,
  the contract the spec itself states (spec section 9); the locale
  collation applied to display names in the final sort comparator is
  kept as an abstract parameter.
* A JS Map is an insertion-ordered association list (set replaces in
  place, get finds the unique entry); maps that are only ever read back
  with get are modelled as functions into Option.
-/

/-! Part: JS primitives -/

/-- A JavaScript number: a finite rational, or one of the non-finite values. -/
inductive JSNum where
  | fin (q : ℚ)
  | nan
  | posInf
  | negInf
deriving DecidableEq

/-- Number.isFinite. -/
def JSNum.isFinite : JSNum → Bool
  | .fin _ => true
  | _ => false

/-- The rational value of a finite JS number (non-finite values are only
ever consumed behind an isFinite guard). -/
def JSNum.toRat : JSNum → ℚ
  | .fin q => q
  | _ => 0

/-- The JS comparison a <= b, false whenever either side is NaN. -/
def jsLe : JSNum → JSNum → Bool
  | .nan, _ => false
  | _, .nan => false
  | .negInf, _ => true
  | _, .negInf => false
  | .posInf, .posInf => true
  | .posInf, .fin _ => false
  | .fin _, .posInf => true
  | .fin a, .fin b => a ≤ b

/-- The JS idiom o || d for a nullable string o: d when o is null,
undefined or the empty string. -/
def jsOr (o : Option String) (d : String) : String :=
  match o with
  | none => d
  | some s => if s = "" then d else s

/-- The JS idiom s || d for a plain string s. -/
def jsOrS (s d : String) : String :=
  if s = "" then d else s

/-- Strict code-point lexicographic order on character lists. -/
def lexLt : List Char → List Char → Bool
  | [], [] => false
  | [], _ :: _ => true
  | _ :: _, [] => false
  | a :: as, b :: bs => if a < b then true else if b < a then false else lexLt as bs

/-- Code-point lexicographic s1 < s2, i.e. s1.localeCompare(s2) < 0 under
the ISO-8601 lexicographic contract of spec section 9. -/
def strLt (s t : String) : Bool := lexLt s.data t.data

/-- Code-point lexicographic s1 <= s2. -/
def strLe (s t : String) : Bool := !(strLt t s)

/-- toUpperCase, character by character. -/
def strUpper (s : String) : String := ⟨s.data.map Char.toUpper⟩

/-- toLowerCase, character by character. -/
def strLower (s : String) : String := ⟨s.data.map Char.toLower⟩

/-- trim: whitespace stripped from both ends. -/
def strTrim (s : String) : String :=
  ⟨((s.data.dropWhile Char.isWhitespace).reverse.dropWhile Char.isWhitespace).reverse⟩

/-- Does the needle occur as a contiguous run at some position of the hay? -/
def listIncl (needle : List Char) : List Char → Bool
  | [] => needle.isEmpty
  | c :: cs => needle.isPrefixOf (c :: cs) || listIncl needle cs

/-- hay.includes(needle). -/
def jsIncludes (hay needle : String) : Bool := listIncl needle.data hay.data

/-! Part: The transaction rows and the Ledger Aggregator (load, lines 103-194) -/

/-- A row of GET /api/general-inventory/transactions (type GeneralTxRow,
page.tsx lines 46-54). -/
structure GeneralTxRow where
  id : Int
  item_code : String
  employee_id : Option String
  action : String
  quantity : Option JSNum
  notes : Option String
  created_at : String
deriving DecidableEq

/-- The value stored in the byKey accumulator of load (page.tsx lines
127-136). -/
structure AllocEntry where
  employee_id : String
  item_code : String
  qty : ℚ
  lastIssueAt : String
  lastIssueNote : String
deriving DecidableEq

/-- String(t.action || "").toUpperCase() (line 139). -/
def txAction (t : GeneralTxRow) : String := strUpper (jsOrS t.action "")

/-- String(t.employee_id || "").trim() (line 142). -/
def txEid (t : GeneralTxRow) : String := strTrim (jsOr t.employee_id "")

/-- String(t.item_code || "").trim() (line 143). -/
def txCode (t : GeneralTxRow) : String := strTrim (jsOrS t.item_code "")

/-- Number(t.quantity ?? 0) (line 146). -/
def txQty (t : GeneralTxRow) : JSNum := t.quantity.getD (JSNum.fin 0)

/-- The transaction-normalizer acceptance test: the conjunction of the
three guards at lines 140, 144 and 147 (each a continue in the source).
A transaction is folded into the ledger iff keptTx holds. -/
def keptTx (t : GeneralTxRow) : Bool :=
  ((txAction t == "ISSUE") || (txAction t == "RETURN"))
    && !(txEid t == "") && !(txCode t == "")
    && (txQty t).isFinite && !(jsLe (txQty t) (JSNum.fin 0))

/-- The map key (line 149). -/
def txKey (t : GeneralTxRow) : String := txEid t ++ "__" ++ txCode t

/-- The freshly created accumulator entry (line 150, the || branch). -/
def emptyAlloc (eid code : String) : AllocEntry :=
  { employee_id := eid, item_code := code, qty := 0, lastIssueAt := "", lastIssueNote := "" }

/-- One kept transaction applied to an accumulator entry (lines 152-161):
ISSUE adds the quantity and overwrites the last-issue metadata when
lastIssueAt is empty or created_at compares strictly greater
(createdAt.localeCompare(prev.lastIssueAt) > 0); RETURN only subtracts
the quantity. -/
def applyTx (a : AllocEntry) (t : GeneralTxRow) : AllocEntry :=
  if txAction t = "ISSUE" then
    let a1 := { a with qty := a.qty + (txQty t).toRat }
    if a1.lastIssueAt = "" || strLt a1.lastIssueAt t.created_at then
      { a1 with lastIssueAt := t.created_at, lastIssueNote := jsOr t.notes "" }
    else a1
  else { a with qty := a.qty - (txQty t).toRat }

/-- A JS Map from string keys to accumulator entries, as an
insertion-ordered association list with unique keys. -/
abbrev JsMap := List (String × AllocEntry)

/-- Map.prototype.get. -/
def jsMapGet : JsMap → String → Option AllocEntry
  | [], _ => none
  | p :: ps, k => if p.1 = k then some p.2 else jsMapGet ps k

/-- Map.prototype.set: replace in place, else append. -/
def jsMapSet : JsMap → String → AllocEntry → JsMap
  | [], k, v => [(k, v)]
  | p :: ps, k, v => if p.1 = k then (k, v) :: ps else p :: jsMapSet ps k v

/-- The body of the for-loop over transactions in load (lines 138-163):
drop the record unless keptTx, otherwise update the entry at its key. -/
def stepTx (m : JsMap) (t : GeneralTxRow) : JsMap :=
  if keptTx t then
    jsMapSet m (txKey t)
      (applyTx ((jsMapGet m (txKey t)).getD (emptyAlloc (txEid t) (txCode t))) t)
  else m

/-- The Ledger Aggregator: the whole fold (byKey after the loop). -/
def byKey (txs : List GeneralTxRow) : JsMap := txs.foldl stepTx []

/-! Part: Reference data, row decoration and the page state (load, lines 103-194) -/

/-- A row of GET /api/general-inventory/items (type GeneralItem, lines 40-44). -/
structure GeneralItem where
  item_code : String
  name : String
  unit_name : String
deriving DecidableEq

/-- Modelled from the spec: the Employee2 record imported from lib/types,
a file of this repository that is not under src/. Spec section 3 (Holder)
gives three candidate identity fields tried in priority order plus a
display name; the nullable identity fields are modelled as strings with
"" standing for null, which the String(x || y) resolution cannot
distinguish from null. -/
structure Employee2 where
  id : Int
  name : String
  fss_no : String
  serial_no : String
deriving DecidableEq

/-- String(e.fss_no || e.serial_no || e.id): the holder identity
resolution used at lines 123, 202, 208 and 252. -/
def empId (e : Employee2) : String :=
  jsOrS e.fss_no (jsOrS e.serial_no (toString e.id))

/-- The empById Map (lines 122-123); later insertions overwrite earlier
ones. -/
def empById (emps : List Employee2) : String → Option Employee2 :=
  emps.foldl (fun m e => fun k => if k = empId e then some e else m k) (fun _ => none)

/-- The itemByCode Map (lines 119-120). -/
def itemByCode (items : List GeneralItem) : String → Option GeneralItem :=
  items.foldl (fun m it => fun k => if k = it.item_code then some it else m k) (fun _ => none)

/-- A derived general-allocation display row (type GeneralAllocationRow,
lines 67-77). -/
structure GeneralAllocationRow where
  id : String
  employee_id : String
  employee_name : String
  item_code : String
  item_name : String
  unit_name : String
  quantity : ℚ
  notes : String
  created_at : String
deriving DecidableEq

/-- The .map step of rowsOut (lines 167-182): decorate an accumulator
entry with the employee name and item catalog data. -/
def decorate (empM : String → Option Employee2) (itemM : String → Option GeneralItem)
    (v : AllocEntry) : GeneralAllocationRow :=
  { id := v.employee_id ++ "__" ++ v.item_code
    employee_id := v.employee_id
    employee_name := match empM v.employee_id with | some e => e.name | none => v.employee_id
    item_code := v.item_code
    item_name := jsOr ((itemM v.item_code).map (fun it => it.name)) v.item_code
    unit_name := jsOr ((itemM v.item_code).map (fun it => it.unit_name)) "unit"
    quantity := v.qty
    notes := jsOrS v.lastIssueNote "-"
    created_at := v.lastIssueAt }

/-- rowsOut before sorting (lines 165-182): the map values filtered to
strictly positive net quantity, decorated for display. -/
def rowsOut (emps : List Employee2) (items : List GeneralItem) (txs : List GeneralTxRow) :
    List GeneralAllocationRow :=
  (((byKey txs).map (fun p => p.2)).filter (fun v => decide (0 < v.qty))).map
    (decorate (empById emps) (itemByCode items))

/-- rowsOut after the descending created_at sort (line 184). The JS sort
with comparator (a, b) => b.created_at.localeCompare(a.created_at) is
modelled as a stable sort by that comparator. -/
def rowsOutSorted (emps : List Employee2) (items : List GeneralItem)
    (txs : List GeneralTxRow) : List GeneralAllocationRow :=
  List.insertionSort (fun a b => strLe b.created_at a.created_at) (rowsOut emps items txs)

/-- A serialized restricted item row (type RestrictedIssuedSerialRow,
lines 16-24). -/
structure RestrictedIssuedSerialRow where
  serial_unit_id : Int
  item_code : String
  item_name : String
  category : String
  serial_number : String
  status : String
  created_at : String
deriving DecidableEq

/-- A restricted quantity item row (type RestrictedIssuedQtyRow,
lines 26-32). -/
structure RestrictedIssuedQtyRow where
  item_code : String
  item_name : String
  category : String
  unit_name : String
  quantity_issued : ℚ
deriving DecidableEq

/-- A per-employee restricted inventory record (type
RestrictedIssuedInventory, lines 34-38). -/
structure RestrictedIssuedInventory where
  employee_id : String
  serial_items : List RestrictedIssuedSerialRow
  quantity_items : List RestrictedIssuedQtyRow
deriving DecidableEq

/-- A row of GET /api/restricted-inventory/transactions (type
RestrictedTxRow, lines 56-65). -/
structure RestrictedTxRow where
  id : Int
  item_code : String
  employee_id : Option String
  serial_unit_id : Option Int
  action : String
  quantity : Option JSNum
  notes : Option String
  created_at : String
deriving DecidableEq

/-- The state held by EmployeeInventoryPage that the reconciliation
writes (lines 92-94, 99) together with the count of error notifications
raised through msg.error. -/
structure PageState where
  employees : List Employee2
  restrictedIssued : List RestrictedIssuedInventory
  generalRows : List GeneralAllocationRow
  restrictedTx : List RestrictedTxRow
  errorCount : Nat
deriving DecidableEq

/-- The five payloads resolved by the Promise.all fan-out (lines 106-112),
already shaped (the Array.isArray guards of lines 114-125 accept them). -/
structure FetchPayload where
  employees : List Employee2
  restrictedIssued : List RestrictedIssuedInventory
  items : List GeneralItem
  txs : List GeneralTxRow
  restrictedTx : List RestrictedTxRow
deriving DecidableEq

/-- One invocation of load (lines 103-194) as a state transformer: some
payload means every fetch resolved and the try block runs to completion;
none means some fetch rejected, so the catch block (lines 186-193) runs:
it raises one msg.error and resets employees, restrictedIssued and
generalRows - and nothing else - to empty. -/
def load (prev : PageState) (res : Option FetchPayload) : PageState :=
  match res with
  | some p =>
      { employees := p.employees
        restrictedIssued := p.restrictedIssued
        restrictedTx := p.restrictedTx
        generalRows := rowsOutSorted p.employees p.items p.txs
        errorCount := prev.errorCount }
  | none =>
      { employees := []
        restrictedIssued := []
        generalRows := []
        restrictedTx := prev.restrictedTx
        errorCount := prev.errorCount + 1 }

/-! Part: The byEmployee merge (lines 212-330) -/

/-- The update guard shared by both last-issue maps (lines 227, 237):
overwrite when there is no previous value, the previous value is the
empty string (!prev), or created_at compares strictly greater. -/
def shouldUpd (prev : Option String) (createdAt : String) : Bool :=
  match prev with
  | none => true
  | some p => p == "" || strLt p createdAt

/-- One restricted transaction folded into the pair of last-issue maps
restrictedLastIssueBySerial and restrictedLastIssueByQtyKey
(lines 219-241). Only ISSUE actions are considered; a positive
serial_unit_id feeds the serial map, and a transaction with no serial id
but non-empty employee and item feeds the quantity-key map. The
Number.isFinite(serialId) guard of line 225 is always true in this
model, where ids are integers. -/
def rtxStep (ms : (Int → Option String) × (String → Option String)) (t : RestrictedTxRow) :
    (Int → Option String) × (String → Option String) :=
  if strUpper (jsOrS t.action "") ≠ "ISSUE" then ms
  else
    let createdAt := t.created_at
    let serialId := t.serial_unit_id.getD 0
    let m1 := if 0 < serialId ∧ shouldUpd (ms.1 serialId) createdAt then
        (fun k => if k = serialId then some createdAt else ms.1 k)
      else ms.1
    let eid := strTrim (jsOr t.employee_id "")
    let code := strTrim (jsOrS t.item_code "")
    let m2 := if eid ≠ "" ∧ code ≠ "" ∧ serialId = 0
        ∧ shouldUpd (ms.2 (eid ++ "__" ++ code)) createdAt then
        (fun k => if k = eid ++ "__" ++ code then some createdAt else ms.2 k)
      else ms.2
    (m1, m2)

/-- The two last-issue maps built from the restricted transaction list. -/
def restrictedMaps (rtx : List RestrictedTxRow) :
    (Int → Option String) × (String → Option String) :=
  rtx.foldl rtxStep (fun _ => none, fun _ => none)

/-- The restrictedMap lookup structure (lines 213-214). -/
def riMap (ri : List RestrictedIssuedInventory) : String → Option RestrictedIssuedInventory :=
  ri.foldl (fun m r => fun k => if k = r.employee_id then some r else m k) (fun _ => none)

/-- The generalMap grouping of allocation rows by employee (lines 243-249). -/
def generalMap (gr : List GeneralAllocationRow) : String → List GeneralAllocationRow :=
  gr.foldl (fun m r => fun k => if k = r.employee_id then m r.employee_id ++ [r] else m k)
    (fun _ => [])

/-- JS Set insertion: append when not yet present. -/
def addUnique (l : List String) (x : String) : List String :=
  if x ∈ l then l else l ++ [x]

/-- The allEmployeeIds Set (lines 251-254): ids from the employee
reference list, the restricted issued source and the general allocation
rows, in insertion order. -/
def allIds (emps : List Employee2) (ri : List RestrictedIssuedInventory)
    (gr : List GeneralAllocationRow) : List String :=
  let s1 := emps.foldl (fun s e => addUnique s (empId e)) []
  let s2 := ri.foldl (fun s r => addUnique s r.employee_id) s1
  gr.foldl (fun s r => addUnique s r.employee_id) s2

/-- The inRange date-window test (lines 260-267). The dayjs parse is the
abstract parameter parse (an unparseable string yields none); start and
stop are the window bounds already expanded to day boundaries, absent
when the corresponding picker side is unset. -/
def inRange (parse : String → Option Int) (start stop : Option Int) (ts : String) : Bool :=
  if start = none ∧ stop = none then true
  else
    match parse ts with
    | none => true
    | some d =>
        if (match start with | some s => decide (d < s) | none => false) then false
        else if (match stop with | some e => decide (e < d) | none => false) then false
        else true

/-- The serial-item refinement of lines 276-279: created_at replaced by
the mapped last-issue timestamp when that is non-empty. -/
def effSerial (lastBySerial : Int → Option String) (s : RestrictedIssuedSerialRow) :
    RestrictedIssuedSerialRow :=
  { s with created_at := jsOr (lastBySerial s.serial_unit_id) s.created_at }

/-- The serial_items pipeline (lines 275-280): refine created_at, then
keep the rows whose created_at is in range. -/
def serialItemsF (lastBySerial : Int → Option String) (parse : String → Option Int)
    (start stop : Option Int) (base : List RestrictedIssuedSerialRow) :
    List RestrictedIssuedSerialRow :=
  (base.map (effSerial lastBySerial)).filter (fun s => inRange parse start stop s.created_at)

/-- The quantity-item visibility test (lines 282-288): everything is
visible without a window; with a window, a missing or empty last-issue
timestamp (!lastIssueAt) excludes the item, otherwise inRange decides. -/
def qtyItemVisible (parse : String → Option Int) (start stop : Option Int)
    (lastByQty : String → Option String) (eid : String) (it : RestrictedIssuedQtyRow) : Bool :=
  if start = none ∧ stop = none then true
  else
    match lastByQty (eid ++ "__" ++ it.item_code) with
    | none => false
    | some s => if s = "" then false else inRange parse start stop s

/-- One element of the byEmployee output (the object built at line 299). -/
structure EmpEntry where
  employee_id : String
  employee_name : String
  serial_no : String
  restricted : RestrictedIssuedInventory
  general : List GeneralAllocationRow
  _totalCount : Nat
deriving DecidableEq

/-- The per-employee entry construction (lines 270-299). -/
def buildEntry (nameById serialById : String → Option String)
    (riM : String → Option RestrictedIssuedInventory)
    (lastBySerial : Int → Option String) (lastByQty : String → Option String)
    (genM : String → List GeneralAllocationRow)
    (parse : String → Option Int) (start stop : Option Int) (eid : String) : EmpEntry :=
  let employee_name := jsOr (nameById eid) eid
  let serial_no := jsOr (serialById eid) ""
  let base := (riM eid).getD
    { employee_id := eid, serial_items := [], quantity_items := [] }
  let serial_items := serialItemsF lastBySerial parse start stop base.serial_items
  let qty_items := base.quantity_items.filter (qtyItemVisible parse start stop lastByQty eid)
  let general := (genM eid).filter (fun r => inRange parse start stop r.created_at)
  { employee_id := eid
    employee_name := employee_name
    serial_no := serial_no
    restricted := { base with serial_items := serial_items, quantity_items := qty_items }
    general := general
    _totalCount := (serial_items.length + qty_items.length) + general.length }

/-- The empNameById map (lines 200-204). -/
def empNameById (emps : List Employee2) : String → Option String :=
  emps.foldl (fun m e => fun k => if k = empId e then some e.name else m k) (fun _ => none)

/-- The empSerialNoById map (lines 206-210); String(e.serial_no || "")
is the identity on the string field. -/
def empSerialNoById (emps : List Employee2) : String → Option String :=
  emps.foldl (fun m e => fun k => if k = empId e then some e.serial_no else m k) (fun _ => none)

/-- The free-text search filter (lines 305-319). -/
def searchKeep (q : String) (g : EmpEntry) : Bool :=
  if q = "" then true
  else if jsIncludes (strLower (g.employee_name ++ " " ++ g.employee_id)) q then true
  else if g.restricted.serial_items.any (fun s =>
      jsIncludes (strLower (s.item_code ++ " " ++ s.item_name ++ " " ++ s.serial_number
        ++ " " ++ s.status)) q) then true
  else if g.restricted.quantity_items.any (fun it =>
      jsIncludes (strLower (it.item_code ++ " " ++ it.item_name ++ " " ++ it.unit_name)) q)
    then true
  else if g.general.any (fun it =>
      jsIncludes (strLower (it.item_code ++ " " ++ it.item_name ++ " " ++ it.notes
        ++ " " ++ it.created_at)) q) then true
  else false

/-- parseInt(s, 10): leading whitespace skipped, optional sign, longest
leading digit run; NaN (none) when there is no digit. -/
def digitsVal (ds : List Char) : Int :=
  ds.foldl (fun a c => a * 10 + ((c.toNat : Int) - ('0'.toNat : Int))) 0

/-- parseInt(s, 10) as an Option. -/
def parseIntJS (s : String) : Option Int :=
  let t := (strTrim s).data
  let sgnRest : Int × List Char :=
    match t with
    | '-' :: cs => (-1, cs)
    | '+' :: cs => (1, cs)
    | cs => (1, cs)
  let ds := sgnRest.2.takeWhile Char.isDigit
  if ds.isEmpty then none else some (sgnRest.1 * digitsVal ds)

/-- The sort comparator of lines 321-328, with the locale collation on
display names as the abstract parameter lc. -/
def empCmp (lc : String → String → Int) (a b : EmpEntry) : Int :=
  match parseIntJS a.serial_no, parseIntJS b.serial_no with
  | some x, some y => x - y
  | some _, none => -1
  | none, some _ => 1
  | none, none => lc a.employee_name b.employee_name

/-- The whole byEmployee useMemo (lines 212-330): build one entry per
holder id, prune zero-total holders when a window is active, apply the
search filter, and sort (the JS sort is modelled as a stable sort by the
comparator). -/
def byEmployee (emps : List Employee2) (ri : List RestrictedIssuedInventory)
    (gr : List GeneralAllocationRow) (rtx : List RestrictedTxRow)
    (search : String) (start stop : Option Int)
    (parse : String → Option Int) (lc : String → String → Int) : List EmpEntry :=
  let maps := restrictedMaps rtx
  let q := strLower (strTrim search)
  let entries := (allIds emps ri gr).map
    (buildEntry (empNameById emps) (empSerialNoById emps) (riMap ri) maps.1 maps.2
      (generalMap gr) parse start stop)
  let pruned := entries.filter (fun g =>
    if start = none ∧ stop = none then true else decide (0 < g._totalCount))
  let searched := pruned.filter (searchKeep q)
  List.insertionSort (fun a b => empCmp lc a b ≤ 0) searched

/-! Part: The dashboard payroll KPIs (DashboardHomePage, lines 1014-1040) -/

/-- A payroll report row as consumed by the kpis useMemo: only net_pay
and paid_status are read (the full PayrollReportRow type lives in
lib/types, outside src/). -/
structure PayrollRow where
  net_pay : Option ℚ
  paid_status : Option String
deriving DecidableEq

/-- String(r.paid_status ?? "unpaid").toLowerCase() (lines 1020, 1026). -/
def rowStatus (r : PayrollRow) : String := strLower (r.paid_status.getD "unpaid")

/-- The payrollPaid reduce (lines 1019-1023). -/
def payrollPaid (rows : List PayrollRow) : ℚ :=
  rows.foldl (fun a r => if rowStatus r ≠ "paid" then a else a + r.net_pay.getD 0) 0

/-- The payrollDue reduce (lines 1025-1029). -/
def payrollDue (rows : List PayrollRow) : ℚ :=
  rows.foldl (fun a r => if rowStatus r = "paid" then a else a + r.net_pay.getD 0) 0

/-! Part: Spec-side characterisations used in the claim statements -/

/-- The signed contribution of a kept transaction to its key's net
quantity: plus for ISSUE, minus for RETURN. -/
def signedQty (t : GeneralTxRow) : ℚ :=
  if txAction t = "ISSUE" then (txQty t).toRat else -((txQty t).toRat)

/-- The kept transactions of one key, in arrival order. -/
def committedTxs (txs : List GeneralTxRow) (k : String) : List GeneralTxRow :=
  txs.filter (fun t => keptTx t && (txKey t == k))

/-- The last-issue update step on (lastIssueAt, lastIssueNote) pairs:
overwrite when the stored timestamp is empty or strictly older. -/
def issStep (p x : String × String) : String × String :=
  if p.1 = "" || strLt p.1 x.1 then x else p

/-- The (created_at, note) pairs of the kept ISSUE transactions of one
key, in arrival order. -/
def issuePairsOf (txs : List GeneralTxRow) (k : String) : List (String × String) :=
  (txs.filter (fun t => keptTx t && (txKey t == k) && (txAction t == "ISSUE"))).map
    (fun t => (t.created_at, jsOr t.notes ""))

/-- The created_at strings of the kept ISSUE transactions of one key. -/
def issueDatesOf (txs : List GeneralTxRow) (k : String) : List String :=
  (txs.filter (fun t => keptTx t && (txKey t == k) && (txAction t == "ISSUE"))).map
    (fun t => t.created_at)

/-- A concrete case-insensitive code-point collation, used to instantiate
the abstract locale collation lc in witnesses: compare the lowercased
strings lexicographically. -/
def ciCompare (s t : String) : Int :=
  if strLt (strLower s) (strLower t) then -1
  else if strLt (strLower t) (strLower s) then 1
  else 0

/-- A concrete date parser used to instantiate the abstract dayjs
parameter in witnesses: exactly the strings of shape YYYY-MM-DD parse,
to a value monotone in the calendar date. -/
def parseYMD (s : String) : Option Int :=
  match s.data with
  | [y1, y2, y3, y4, '-', m1, m2, '-', d1, d2] =>
      if ([y1, y2, y3, y4, m1, m2, d1, d2]).all Char.isDigit then
        some (digitsVal [y1, y2, y3, y4] * 372 + digitsVal [m1, m2] * 31 + digitsVal [d1, d2])
      else none
  | _ => none

/-- The total order claimed for the merged output: ascending by numeric
serial identifier, numeric before non-numeric, otherwise by the name
collation. -/
def claimOrder (lc : String → String → Int) (a b : EmpEntry) : Prop :=
  match parseIntJS a.serial_no, parseIntJS b.serial_no with
  | some x, some y => x ≤ y
  | some _, none => True
  | none, some _ => False
  | none, none => lc a.employee_name b.employee_name ≤ 0

/-- The maximum of two timestamps under the localeCompare order (the net
effect of one issStep update on the stored timestamp). -/
def dOp (m d : String) : String := if m = "" || strLt m d then d else m

/-- Concrete data for checks: an ISSUE transaction. -/
def txI (eid code : String) (q : ℚ) (at_ note_ : String) : GeneralTxRow :=
  { id := 0, item_code := code, employee_id := some eid, action := "ISSUE",
    quantity := some (JSNum.fin q), notes := some note_, created_at := at_ }

/-- Concrete data for checks: a RETURN transaction. -/
def txR (eid code : String) (q : ℚ) (at_ : String) : GeneralTxRow :=
  { id := 0, item_code := code, employee_id := some eid, action := "RETURN",
    quantity := some (JSNum.fin q), notes := none, created_at := at_ }

/-- The per-key outcome of folding a run of transactions of one key into
the map: an existing entry is updated transaction by transaction; a key
first seen at transaction t starts from the empty entry carrying t's
employee id and item code. -/
def keyOut (acc : Option AllocEntry) (l : List GeneralTxRow) : Option AllocEntry :=
  match acc, l with
  | some a, l => some (l.foldl applyTx a)
  | none, [] => none
  | none, t :: ts => some ((t :: ts).foldl applyTx (emptyAlloc (txEid t) (txCode t)))

/-- Spec section 8 example 6: ISSUE 5 at 2024-01-01, RETURN 2 at
2024-01-05, ISSUE 1 at 2024-01-10, all for holder H1 and item X. -/
def txs6 : List GeneralTxRow :=
  [txI "H1" "X" 5 "2024-01-01" "", txR "H1" "X" 2 "2024-01-05", txI "H1" "X" 1 "2024-01-10" ""]

/-- Spec section 8 example 7: the same three transactions permuted. -/
def txs7 : List GeneralTxRow :=
  [txI "H1" "X" 1 "2024-01-10" "", txI "H1" "X" 5 "2024-01-01" "", txR "H1" "X" 2 "2024-01-05"]

/-- The aggregate the spec expects for example 6. -/
def a6 : AllocEntry :=
  { employee_id := "H1", item_code := "X", qty := 4,
    lastIssueAt := "2024-01-10", lastIssueNote := "" }

/-- Two ISSUE transactions over the same key sharing one created_at but
carrying different notes. -/
def c1a : GeneralTxRow := txI "e" "i" 1 "2024-01-01" "noteA"

/-- See c1a. -/
def c1b : GeneralTxRow := txI "e" "i" 1 "2024-01-01" "noteB"

/-- A ledger whose only key nets to a negative quantity. -/
def txsW5 : List GeneralTxRow :=
  [txI "e" "i" 2 "2024-01-01" "n", txR "e" "i" 5 "2024-01-02"]

/-- The aggregate of txsW5. -/
def a5 : AllocEntry :=
  { employee_id := "e", item_code := "i", qty := -3,
    lastIssueAt := "2024-01-01", lastIssueNote := "n" }

/-- A restricted transaction row used as stale pre-failure state. -/
def rtx0 : RestrictedTxRow :=
  { id := 1, item_code := "G1", employee_id := some "E1", serial_unit_id := some 9,
    action := "ISSUE", quantity := some (JSNum.fin 1), notes := none,
    created_at := "2024-02-02" }

/-- A page state holding data from an earlier successful load. -/
def prevW : PageState :=
  { employees := [{ id := 1, name := "Bob", fss_no := "F1", serial_no := "7" }]
    restrictedIssued := []
    generalRows := []
    restrictedTx := [rtx0]
    errorCount := 0 }

/-- A one-employee reference list. -/
def empsW : List Employee2 :=
  [{ id := 1, name := "Bob", fss_no := "F1", serial_no := "7" }]

/-- Two employees whose serial numbers sort numerically (2 before 10),
not lexicographically. -/
def empsW9 : List Employee2 :=
  [{ id := 1, name := "bob", fss_no := "", serial_no := "10" },
   { id := 2, name := "Al", fss_no := "", serial_no := "2" }]

/-- A restricted quantity item with no matching ISSUE transaction. -/
def qtyItemW : RestrictedIssuedQtyRow :=
  { item_code := "IC", item_name := "n", category := "c", unit_name := "u",
    quantity_issued := 1 }

/-- A serialized item whose effective created_at does not parse as a date. -/
def serialW : RestrictedIssuedSerialRow :=
  { serial_unit_id := 3, item_code := "c", item_name := "n", category := "cat",
    serial_number := "sn", status := "issued", created_at := "garbage" }

/-- A general allocation row whose created_at does not parse as a date. -/
def genRowW : GeneralAllocationRow :=
  { id := "E__c", employee_id := "E", employee_name := "Bob", item_code := "c",
    item_name := "n", unit_name := "u", quantity := 1, notes := "-", created_at := "bad" }

/-! Part: order lemmas for the lexicographic string comparison -/

theorem lexLt_irrefl : ∀ l : List Char, lexLt l l = false
  | [] => rfl
  | a :: as => by simp [lexLt, lexLt_irrefl as]

theorem lexLt_asymm : ∀ {l₁ l₂ : List Char}, lexLt l₁ l₂ = true → lexLt l₂ l₁ = false
  | [], [], h => by simp [lexLt] at h
  | [], _ :: _, _ => rfl
  | _ :: _, [], h => by simp [lexLt] at h
  | a :: as, b :: bs, h => by
    simp only [lexLt] at h ⊢
    rcases lt_trichotomy a b with hab | hab | hab
    · simp [hab, not_lt_of_gt hab, lt_asymm hab]
    · subst hab
      simp only [lt_irrefl, if_false] at h ⊢
      exact lexLt_asymm h
    · simp [hab, not_lt_of_gt hab, lt_asymm hab] at h

theorem lexLt_trans : ∀ {l₁ l₂ l₃ : List Char},
    lexLt l₁ l₂ = true → lexLt l₂ l₃ = true → lexLt l₁ l₃ = true
  | [], _, b :: bs, _, _ => rfl
  | [], _ :: _, [], _, h₂ => by simp [lexLt] at h₂
  | [], [], [], h₁, _ => by simp [lexLt] at h₁
  | _ :: _, [], _, h₁, _ => by simp [lexLt] at h₁
  | _ :: _, _ :: _, [], _, h₂ => by simp [lexLt] at h₂
  | a :: as, b :: bs, c :: cs, h₁, h₂ => by
    simp only [lexLt] at h₁ h₂ ⊢
    by_cases hab : a < b
    · by_cases hbc : b < c
      · simp [lt_trans hab hbc]
      · by_cases hcb : c < b
        · simp [hbc, hcb] at h₂
        · have hbceq : b = c := le_antisymm (not_lt.mp hcb) (not_lt.mp hbc)
          subst hbceq
          simp [hab]
    · by_cases hba : b < a
      · simp [hab, hba] at h₁
      · have habeq : a = b := le_antisymm (not_lt.mp hba) (not_lt.mp hab)
        subst habeq
        simp only [lt_irrefl, if_false] at h₁
        by_cases hac : a < c
        · simp [hac]
        · by_cases hca : c < a
          · simp [hac, hca] at h₂
          · have haceq : a = c := le_antisymm (not_lt.mp hca) (not_lt.mp hac)
            subst haceq
            simp only [lt_irrefl, if_false] at h₂ ⊢
            exact lexLt_trans h₁ h₂

theorem lexLt_total_eq : ∀ {l₁ l₂ : List Char},
    lexLt l₁ l₂ = false → lexLt l₂ l₁ = false → l₁ = l₂
  | [], [], _, _ => rfl
  | [], _ :: _, h₁, _ => by simp [lexLt] at h₁
  | _ :: _, [], _, h₂ => by simp [lexLt] at h₂
  | a :: as, b :: bs, h₁, h₂ => by
    simp only [lexLt] at h₁ h₂
    rcases lt_trichotomy a b with hab | hab | hab
    · simp [hab] at h₁
    · subst hab
      simp only [lt_irrefl, if_false] at h₁ h₂
      rw [lexLt_total_eq h₁ h₂]
    · simp [hab] at h₂

theorem lexLt_nil_right : ∀ l : List Char, lexLt l [] = false
  | [] => rfl
  | _ :: _ => rfl

theorem strLt_irrefl (s : String) : strLt s s = false := lexLt_irrefl s.data

theorem strLt_asymm {s t : String} (h : strLt s t = true) : strLt t s = false :=
  lexLt_asymm h

theorem strLt_trans {s t u : String} (h₁ : strLt s t = true) (h₂ : strLt t u = true) :
    strLt s u = true := lexLt_trans h₁ h₂

theorem strLt_total_eq {s t : String} (h₁ : strLt s t = false) (h₂ : strLt t s = false) :
    s = t := by
  cases s; cases t
  exact congrArg String.mk (lexLt_total_eq h₁ h₂)

theorem strLt_empty_right (s : String) : strLt s "" = false := lexLt_nil_right s.data

theorem strLe_refl (s : String) : strLe s s = true := by
  simp [strLe, strLt_irrefl]

theorem strLe_of_lt {s t : String} (h : strLt s t = true) : strLe s t = true := by
  simp [strLe, strLt_asymm h]

theorem strLe_trans {s t u : String} (h₁ : strLe s t = true) (h₂ : strLe t u = true) :
    strLe s u = true := by
  simp only [strLe, Bool.not_eq_true'] at h₁ h₂ ⊢
  by_cases hus : strLt u s = true
  · by_cases hst : strLt s t = true
    · have hut := strLt_trans hus hst
      simp [hut] at h₂
    · have hst' : strLt s t = false := by simpa using hst
      have hseq : s = t := strLt_total_eq hst' h₁
      subst hseq
      simp [hus] at h₂
  · simpa using hus

theorem strLe_empty (s : String) : strLe "" s = true := by
  simp [strLe, strLt_empty_right]

theorem strLt_of_lt_of_not_lt {x a y : String} (h₁ : strLt x a = true)
    (h₂ : strLt y a = false) : strLt x y = true := by
  by_cases hay : strLt a y = true
  · exact strLt_trans h₁ hay
  · have : y = a := strLt_total_eq h₂ (by simpa using hay)
    subst this
    exact h₁

/-! Part: the timestamp maximum dOp -/

theorem dOp_eq_jm (m d : String) : dOp m d = if strLt d m then m else d := by
  by_cases hm : m = ""
  · subst hm
    simp [dOp, strLt_empty_right]
  · simp only [dOp, hm, Bool.false_or, if_neg hm]
    by_cases hmd : strLt m d = true
    · simp [hmd, strLt_asymm hmd]
    · simp only [hmd, if_false, Bool.false_eq_true]
      by_cases hdm : strLt d m = true
      · simp [hdm]
      · have : d = m := strLt_total_eq (by simpa using hdm) (by simpa using hmd)
        simp [hdm, this]

theorem jm_comm (x y : String) :
    (if strLt y x then x else y) = if strLt x y then y else x := by
  by_cases h₁ : strLt y x = true
  · simp [h₁, strLt_asymm h₁]
  · by_cases h₂ : strLt x y = true
    · simp [h₁, h₂]
    · have : x = y := strLt_total_eq (by simpa using h₂) (by simpa using h₁)
      simp [this]

theorem dOp_swap (a x y : String) : dOp (dOp a x) y = dOp (dOp a y) x := by
  simp only [dOp_eq_jm]
  by_cases h1 : strLt x a = true
  · by_cases h2 : strLt y a = true
    · simp [h1, h2]
    · have hxy : strLt x y = true := strLt_of_lt_of_not_lt h1 (by simpa using h2)
      simp [h1, h2, hxy, strLt_asymm hxy]
  · by_cases h2 : strLt y a = true
    · have hyx : strLt y x = true := strLt_of_lt_of_not_lt h2 (by simpa using h1)
      simp [h1, h2, hyx, strLt_asymm hyx]
    · simp only [h1, h2, if_false, Bool.false_eq_true]
      exact jm_comm x y

theorem dOp_cases (m d : String) : dOp m d = m ∨ dOp m d = d := by
  unfold dOp
  split
  · exact Or.inr rfl
  · exact Or.inl rfl

theorem strLe_dOp_left (m d : String) : strLe m (dOp m d) = true := by
  unfold dOp
  split
  case isTrue h =>
    rcases (by simpa using h : m = "" ∨ strLt m d = true) with h' | h'
    · subst h'
      exact strLe_empty d
    · exact strLe_of_lt h'
  case isFalse h => exact strLe_refl m

theorem strLe_dOp_right (m d : String) : strLe d (dOp m d) = true := by
  unfold dOp
  split
  case isTrue h => exact strLe_refl d
  case isFalse h =>
    have h' : ¬(m = "" ∨ strLt m d = true) := by simpa using h
    push_neg at h'
    simp only [strLe, Bool.not_eq_true']
    exact Bool.eq_false_iff.mpr (fun hmd => h'.2 (by simpa using hmd))

theorem foldl_dOp_bound : ∀ (l : List String) (a : String),
    strLe a (l.foldl dOp a) = true ∧ ∀ d ∈ l, strLe d (l.foldl dOp a) = true := by
  intro l
  induction l with
  | nil => intro a; exact ⟨strLe_refl a, by simp⟩
  | cons x xs ih =>
    intro a
    have h := ih (dOp a x)
    refine ⟨strLe_trans (strLe_dOp_left a x) h.1, ?_⟩
    intro d hd
    rcases List.mem_cons.mp hd with rfl | hd'
    · exact strLe_trans (strLe_dOp_right a d) h.1
    · exact h.2 d hd'

theorem foldl_dOp_mem : ∀ (l : List String) (a : String),
    l.foldl dOp a = a ∨ l.foldl dOp a ∈ l := by
  intro l
  induction l with
  | nil => intro a; exact Or.inl rfl
  | cons x xs ih =>
    intro a
    rcases ih (dOp a x) with h | h
    · rw [List.foldl_cons, h]
      rcases dOp_cases a x with h' | h'
      · exact Or.inl h'
      · exact Or.inr (by rw [h']; exact List.mem_cons_self x xs)
    · exact Or.inr (List.mem_cons_of_mem x h)

/-! Part: generic permutation-invariance of folds -/

theorem foldl_perm_swapOn {α β : Type} {f : β → α → β} :
    ∀ {l l' : List α}, l.Perm l' →
      (∀ x ∈ l, ∀ y ∈ l, ∀ b, f (f b x) y = f (f b y) x) →
      ∀ b, l.foldl f b = l'.foldl f b := by
  intro l l' hp
  induction hp with
  | nil => intro _ _; rfl
  | cons x hp ih =>
    intro hswap b
    simp only [List.foldl_cons]
    exact ih (fun u hu v hv => hswap u (List.mem_cons_of_mem x hu)
      v (List.mem_cons_of_mem x hv)) (f b x)
  | swap x y l =>
    intro hswap b
    simp only [List.foldl_cons]
    rw [hswap y (by simp) x (by simp) b]
  | trans hp₁ hp₂ ih₁ ih₂ =>
    intro hswap b
    rw [ih₁ hswap b]
    exact ih₂ (fun u hu v hv =>
      hswap u (hp₁.mem_iff.mpr hu) v (hp₁.mem_iff.mpr hv)) b

/-! Part: the last-issue update step -/

theorem issStep_fst (p x : String × String) : (issStep p x).1 = dOp p.1 x.1 := by
  unfold issStep dOp
  split
  case isTrue h => simp [h]
  case isFalse h => simp [h]

theorem foldl_issStep_fst : ∀ (ps : List (String × String)) (p : String × String),
    (ps.foldl issStep p).1 = (ps.map Prod.fst).foldl dOp p.1 := by
  intro ps
  induction ps with
  | nil => intro p; rfl
  | cons x xs ih =>
    intro p
    simp only [List.foldl_cons, List.map_cons]
    rw [ih (issStep p x), issStep_fst]

theorem issStep_swap {x y : String × String} (hxy : x = y ∨ x.1 ≠ y.1)
    (z : String × String) : issStep (issStep z x) y = issStep (issStep z y) x := by
  rcases hxy with rfl | hxy
  · rfl
  · unfold issStep
    by_cases h1 : (z.1 = "" || strLt z.1 x.1) = true
    · by_cases h2 : (z.1 = "" || strLt z.1 y.1) = true
      · simp only [h1, h2, if_true]
        by_cases hlt : strLt x.1 y.1 = true
        · have hy : y.1 ≠ "" := fun he => by
            rw [he] at hlt
            simp [strLt_empty_right] at hlt
          simp [hlt, hy, strLt_asymm hlt]
        · by_cases hgt : strLt y.1 x.1 = true
          · have hx : x.1 ≠ "" := fun he => by
              rw [he] at hgt
              simp [strLt_empty_right] at hgt
            simp [hgt, hx, strLt_asymm hgt]
          · exact absurd (strLt_total_eq (by simpa using hlt) (by simpa using hgt)) hxy
      · have h2' : z.1 ≠ "" ∧ strLt z.1 y.1 = false := by simpa using h2
        have hzx : strLt z.1 x.1 = true := by
          rcases (by simpa using h1 : z.1 = "" ∨ strLt z.1 x.1 = true) with hz | hzx
          · exact absurd hz h2'.1
          · exact hzx
        have hx : x.1 ≠ "" := fun he => by
          rw [he] at hzx
          simp [strLt_empty_right] at hzx
        have hxdy : strLt x.1 y.1 = false := by
          by_contra hc
          have := strLt_trans hzx (by simpa using hc)
          simp [this] at h2'
        simp [h1, h2, hx, hxdy]
    · by_cases h2 : (z.1 = "" || strLt z.1 y.1) = true
      · have h1' : z.1 ≠ "" ∧ strLt z.1 x.1 = false := by simpa using h1
        have hzy : strLt z.1 y.1 = true := by
          rcases (by simpa using h2 : z.1 = "" ∨ strLt z.1 y.1 = true) with hz | hzy
          · exact absurd hz h1'.1
          · exact hzy
        have hy : y.1 ≠ "" := fun he => by
          rw [he] at hzy
          simp [strLt_empty_right] at hzy
        have hydx : strLt y.1 x.1 = false := by
          by_contra hc
          have := strLt_trans hzy (by simpa using hc)
          simp [this] at h1'
        simp [h1, h2, hy, hydx]
      · simp [h1, h2]

/-! Part: association-list map lemmas and the per-key characterisation -/

theorem jsMapGet_set : ∀ (m : JsMap) (k : String) (v : AllocEntry) (j : String),
    jsMapGet (jsMapSet m k v) j = if j = k then some v else jsMapGet m j := by
  intro m
  induction m with
  | nil =>
    intro k v j
    simp only [jsMapSet, jsMapGet]
    by_cases h : k = j
    · rw [if_pos h, if_pos h.symm]
    · rw [if_neg h, if_neg (fun hh => h hh.symm)]
  | cons p ps ih =>
    intro k v j
    simp only [jsMapSet]
    by_cases hp : p.1 = k
    · rw [if_pos hp]
      simp only [jsMapGet]
      by_cases hj : k = j
      · rw [if_pos hj, if_pos hj.symm]
      · rw [if_neg hj, if_neg (fun hh => hj hh.symm), if_neg (fun hh => hj ((hp.symm.trans hh)))]
    · rw [if_neg hp]
      simp only [jsMapGet, ih]
      by_cases hpj : p.1 = j
      · have hjk : ¬j = k := fun hh => hp (hpj.trans hh)
        rw [if_pos hpj, if_neg hjk, if_pos hpj]
      · rw [if_neg hpj]
        by_cases hjk : j = k
        · rw [if_pos hjk, if_pos hjk]
        · rw [if_neg hjk, if_neg hjk, if_neg hpj]

theorem jsMapGet_mem : ∀ {m : JsMap} {k : String} {a : AllocEntry},
    jsMapGet m k = some a → a ∈ m.map Prod.snd := by
  intro m
  induction m with
  | nil => intro k a h; simp [jsMapGet] at h
  | cons p ps ih =>
    intro k a h
    simp only [jsMapGet] at h
    by_cases hp : p.1 = k
    · rw [if_pos hp] at h
      simp [Option.some_inj.mp h]
    · rw [if_neg hp] at h
      simp [ih h]

theorem byKey_char : ∀ (txs : List GeneralTxRow) (m : JsMap) (k : String),
    jsMapGet (txs.foldl stepTx m) k = keyOut (jsMapGet m k) (committedTxs txs k) := by
  intro txs
  induction txs with
  | nil =>
    intro m k
    simp only [List.foldl_nil, committedTxs, List.filter_nil, keyOut]
    cases jsMapGet m k <;> rfl
  | cons t ts ih =>
    intro m k
    simp only [List.foldl_cons, committedTxs, List.filter_cons]
    by_cases hkept : keptTx t = true
    · by_cases hkey : txKey t = k
      · have hpred : (keptTx t && (txKey t == k)) = true := by simp [hkept, hkey]
        rw [if_pos hpred]
        rw [ih]
        have hget : jsMapGet (stepTx m t) k =
            some (applyTx ((jsMapGet m k).getD (emptyAlloc (txEid t) (txCode t))) t) := by
          simp [stepTx, hkept, hkey, jsMapGet_set]
        rw [hget]
        cases hmk : jsMapGet m k with
        | none =>
          simp only [keyOut, Option.getD_none, List.foldl_cons]
          rfl
        | some a =>
          simp only [keyOut, Option.getD_some, List.foldl_cons]
          rfl
      · have hpred : ¬(keptTx t && (txKey t == k)) = true := by simp [hkey]
        rw [if_neg hpred, ih]
        have hget : jsMapGet (stepTx m t) k = jsMapGet m k := by
          simp only [stepTx, if_pos hkept, jsMapGet_set]
          rw [if_neg (fun hh => hkey hh.symm)]
        rw [hget]
        rfl
    · have hpred : ¬(keptTx t && (txKey t == k)) = true := by simp [hkept]
      rw [if_neg hpred, ih]
      have hget : stepTx m t = m := by simp [stepTx, hkept]
      rw [hget]
      rfl

theorem applyTx_qty (a : AllocEntry) (t : GeneralTxRow) :
    (applyTx a t).qty = a.qty + signedQty t := by
  unfold applyTx signedQty
  by_cases h : txAction t = "ISSUE"
  · simp only [h, if_true]
    split <;> rfl
  · simp only [h, if_false]
    rw [sub_eq_add_neg]

theorem applyTx_lp (a : AllocEntry) (t : GeneralTxRow) :
    ((applyTx a t).lastIssueAt, (applyTx a t).lastIssueNote) =
      if txAction t = "ISSUE" then
        issStep (a.lastIssueAt, a.lastIssueNote) (t.created_at, jsOr t.notes "")
      else (a.lastIssueAt, a.lastIssueNote) := by
  unfold applyTx issStep
  by_cases h : txAction t = "ISSUE"
  · simp only [h, if_true]
    split <;> rfl
  · simp only [h, if_false]

theorem foldl_applyTx_qty : ∀ (l : List GeneralTxRow) (a : AllocEntry),
    (l.foldl applyTx a).qty = a.qty + (l.map signedQty).sum := by
  intro l
  induction l with
  | nil => intro a; simp
  | cons t ts ih =>
    intro a
    simp only [List.foldl_cons, List.map_cons, List.sum_cons]
    rw [ih, applyTx_qty, add_assoc]

theorem foldl_applyTx_lp : ∀ (l : List GeneralTxRow) (a : AllocEntry),
    ((l.foldl applyTx a).lastIssueAt, (l.foldl applyTx a).lastIssueNote) =
      ((l.filter (fun t => txAction t == "ISSUE")).map
        (fun t => (t.created_at, jsOr t.notes ""))).foldl issStep
        (a.lastIssueAt, a.lastIssueNote) := by
  intro l
  induction l with
  | nil => intro a; rfl
  | cons t ts ih =>
    intro a
    simp only [List.foldl_cons, List.filter_cons]
    by_cases h : txAction t = "ISSUE"
    · rw [if_pos (by simpa using h)]
      simp only [List.map_cons, List.foldl_cons]
      rw [ih]
      congr 1
      rw [applyTx_lp, if_pos h]
    · rw [if_neg (by simpa using h)]
      rw [ih]
      congr 1
      rw [applyTx_lp, if_neg h]

theorem strLe_antisymm {s t : String} (h₁ : strLe s t = true) (h₂ : strLe t s = true) :
    s = t := by
  simp only [strLe, Bool.not_eq_true'] at h₁ h₂
  exact strLt_total_eq h₂ h₁

theorem byKey_get (txs : List GeneralTxRow) (k : String) :
    jsMapGet (byKey txs) k = keyOut none (committedTxs txs k) :=
  byKey_char txs [] k

theorem committed_issue_filter (txs : List GeneralTxRow) (k : String) :
    (committedTxs txs k).filter (fun t => txAction t == "ISSUE") =
      txs.filter (fun t => keptTx t && (txKey t == k) && (txAction t == "ISSUE")) := by
  unfold committedTxs
  rw [List.filter_filter]
  apply List.filter_congr
  intro t _
  rw [Bool.and_comm]

theorem byKey_none_iff (txs : List GeneralTxRow) (k : String) :
    jsMapGet (byKey txs) k = none ↔ committedTxs txs k = [] := by
  rw [byKey_get]
  cases committedTxs txs k with
  | nil => simp [keyOut]
  | cons t ts => simp [keyOut]

theorem byKey_some_qty {txs : List GeneralTxRow} {k : String} {a : AllocEntry}
    (h : jsMapGet (byKey txs) k = some a) :
    a.qty = ((committedTxs txs k).map signedQty).sum := by
  rw [byKey_get] at h
  cases hc : committedTxs txs k with
  | nil => rw [hc] at h; simp [keyOut] at h
  | cons t ts =>
    rw [hc] at h
    simp only [keyOut, Option.some_inj] at h
    rw [← h, foldl_applyTx_qty]
    simp [emptyAlloc]

theorem byKey_some_lp {txs : List GeneralTxRow} {k : String} {a : AllocEntry}
    (h : jsMapGet (byKey txs) k = some a) :
    (a.lastIssueAt, a.lastIssueNote) = (issuePairsOf txs k).foldl issStep ("", "") := by
  rw [byKey_get] at h
  cases hc : committedTxs txs k with
  | nil => rw [hc] at h; simp [keyOut] at h
  | cons t ts =>
    rw [hc] at h
    simp only [keyOut, Option.some_inj] at h
    rw [← h, foldl_applyTx_lp]
    have : issuePairsOf txs k =
        ((committedTxs txs k).filter (fun t => txAction t == "ISSUE")).map
          (fun t => (t.created_at, jsOr t.notes "")) := by
      rw [committed_issue_filter]
      rfl
    rw [this, hc]
    rfl

theorem issuePairs_fst (txs : List GeneralTxRow) (k : String) :
    (issuePairsOf txs k).map Prod.fst = issueDatesOf txs k := by
  unfold issuePairsOf issueDatesOf
  rw [List.map_map]
  rfl

theorem byKey_some_lastAt {txs : List GeneralTxRow} {k : String} {a : AllocEntry}
    (h : jsMapGet (byKey txs) k = some a) :
    a.lastIssueAt = (issueDatesOf txs k).foldl dOp "" := by
  have hlp := byKey_some_lp h
  have := congrArg Prod.fst hlp
  simp only at this
  rw [this, foldl_issStep_fst, issuePairs_fst]

theorem issueDatesOf_perm {txs txs' : List GeneralTxRow} (h : txs.Perm txs') (k : String) :
    (issueDatesOf txs k).Perm (issueDatesOf txs' k) :=
  (h.filter _).map _

theorem issuePairsOf_perm {txs txs' : List GeneralTxRow} (h : txs.Perm txs') (k : String) :
    (issuePairsOf txs k).Perm (issuePairsOf txs' k) :=
  (h.filter _).map _

/-! Part: claim C1 (order independence of the Ledger Aggregator) -/

/-- Claim C1, counterexample: two ISSUE transactions with the same
created_at but different notes produce different last_issue_note values
under the two processing orders, although the lists are permutations of
each other; so the output map is not identical for every permutation. -/
theorem spec_C1_cex :
    [c1a, c1b].Perm [c1b, c1a] ∧
      (jsMapGet (byKey [c1a, c1b]) "e__i").map AllocEntry.lastIssueNote ≠
        (jsMapGet (byKey [c1b, c1a]) "e__i").map AllocEntry.lastIssueNote := by
  constructor
  · exact List.Perm.swap c1b c1a []
  · have h1 : (jsMapGet (byKey [c1a, c1b]) "e__i").map AllocEntry.lastIssueNote
        = some "noteA" := by with_unfolding_all rfl
    have h2 : (jsMapGet (byKey [c1b, c1a]) "e__i").map AllocEntry.lastIssueNote
        = some "noteB" := by with_unfolding_all rfl
    rw [h1, h2]
    simp

/-- Claim C1 as amended: for every permutation of the transaction list,
the Ledger Aggregator produces, for each key, the same net quantity and
the same last_issue_at; the last_issue_note is also identical provided
the created_at values of the key's kept ISSUE transactions are pairwise
distinct (the counterexample shows it can differ when two ISSUE
timestamps tie). -/
theorem spec_C1 (txs txs' : List GeneralTxRow) (h : txs.Perm txs') (k : String) :
    ((jsMapGet (byKey txs) k).map AllocEntry.qty
        = (jsMapGet (byKey txs') k).map AllocEntry.qty
      ∧ (jsMapGet (byKey txs) k).map AllocEntry.lastIssueAt
        = (jsMapGet (byKey txs') k).map AllocEntry.lastIssueAt)
    ∧ ((issueDatesOf txs k).Nodup →
        (jsMapGet (byKey txs) k).map AllocEntry.lastIssueNote
          = (jsMapGet (byKey txs') k).map AllocEntry.lastIssueNote) := by
  have hcp : (committedTxs txs k).Perm (committedTxs txs' k) := h.filter _
  by_cases hnil : committedTxs txs k = []
  · have hnil' : committedTxs txs' k = [] := by
      rw [hnil] at hcp
      exact hcp.symm.eq_nil
    have g1 : jsMapGet (byKey txs) k = none := (byKey_none_iff txs k).mpr hnil
    have g2 : jsMapGet (byKey txs') k = none := (byKey_none_iff txs' k).mpr hnil'
    rw [g1, g2]
    simp
  · have hnil' : ¬committedTxs txs' k = [] := fun hh => hnil (List.Perm.eq_nil (hh ▸ hcp))
    obtain ⟨a, ha⟩ : ∃ a, jsMapGet (byKey txs) k = some a := by
      cases hg : jsMapGet (byKey txs) k with
      | none => exact absurd ((byKey_none_iff txs k).mp hg) hnil
      | some a => exact ⟨a, rfl⟩
    obtain ⟨a', ha'⟩ : ∃ a', jsMapGet (byKey txs') k = some a' := by
      cases hg : jsMapGet (byKey txs') k with
      | none => exact absurd ((byKey_none_iff txs' k).mp hg) hnil'
      | some a' => exact ⟨a', rfl⟩
    rw [ha, ha']
    have hqty : a.qty = a'.qty := by
      rw [byKey_some_qty ha, byKey_some_qty ha']
      exact (hcp.map signedQty).sum_eq
    have hlastAt : a.lastIssueAt = a'.lastIssueAt := by
      rw [byKey_some_lastAt ha, byKey_some_lastAt ha']
      exact foldl_perm_swapOn (issueDatesOf_perm h k)
        (fun x _ y _ b => dOp_swap b x y) ""
    refine ⟨⟨by simp [hqty], by simp [hlastAt]⟩, ?_⟩
    intro hnd
    have hpairs : ((issuePairsOf txs k).map Prod.fst).Nodup := by
      rw [issuePairs_fst]
      exact hnd
    have hlp : (issuePairsOf txs k).foldl issStep ("", "")
        = (issuePairsOf txs' k).foldl issStep ("", "") := by
      apply foldl_perm_swapOn (issuePairsOf_perm h k)
      intro x hx y hy b
      apply issStep_swap
      by_cases hxy : x = y
      · exact Or.inl hxy
      · refine Or.inr (fun hfst => hxy ?_)
        exact List.inj_on_of_nodup_map hpairs hx hy hfst
    have e1 := byKey_some_lp ha
    have e2 := byKey_some_lp ha'
    have hpair : (a.lastIssueAt, a.lastIssueNote) = (a'.lastIssueAt, a'.lastIssueNote) := by
      rw [e1, e2, hlp]
    have hnote : a.lastIssueNote = a'.lastIssueNote := congrArg Prod.snd hpair
    simp [hnote]

/-- Witness for C1 on the spec's own example pair (section 8, examples 6
and 7): the permutation and distinct-timestamp hypotheses hold and the
aggregates agree. -/
theorem spec_C1_witness :
    txs6.Perm txs7 ∧ (issueDatesOf txs6 "H1__X").Nodup ∧
      ((jsMapGet (byKey txs6) "H1__X").map AllocEntry.qty
          = (jsMapGet (byKey txs7) "H1__X").map AllocEntry.qty
        ∧ (jsMapGet (byKey txs6) "H1__X").map AllocEntry.lastIssueAt
          = (jsMapGet (byKey txs7) "H1__X").map AllocEntry.lastIssueAt) ∧
      (jsMapGet (byKey txs6) "H1__X").map AllocEntry.lastIssueNote
        = (jsMapGet (byKey txs7) "H1__X").map AllocEntry.lastIssueNote :=
  ⟨by decide, by decide,
    (spec_C1 txs6 txs7 (by decide) "H1__X").1,
    (spec_C1 txs6 txs7 (by decide) "H1__X").2 (by decide)⟩

/-! Part: claim C4 (last-issue metadata) -/

/-- Claim C4: for any processing order, a key's last_issue_at and
last_issue_note are exactly the fold of the last-issue update over the
key's kept ISSUE transactions alone - so RETURN transactions never
affect them - and, when the key has at least one kept ISSUE transaction,
last_issue_at is the lexicographically maximal created_at among them
(an element of the list that bounds every element from above). -/
theorem spec_C4 (txs : List GeneralTxRow) (k : String) (a : AllocEntry)
    (h : jsMapGet (byKey txs) k = some a) :
    ((a.lastIssueAt, a.lastIssueNote) = (issuePairsOf txs k).foldl issStep ("", ""))
    ∧ (issueDatesOf txs k ≠ [] →
        a.lastIssueAt ∈ issueDatesOf txs k
          ∧ ∀ d ∈ issueDatesOf txs k, strLe d a.lastIssueAt = true) := by
  refine ⟨byKey_some_lp h, ?_⟩
  intro hne
  have hfold := byKey_some_lastAt h
  have hub := (foldl_dOp_bound (issueDatesOf txs k) "").2
  have hmem := foldl_dOp_mem (issueDatesOf txs k) ""
  constructor
  · rcases hmem with hm | hm
    · rw [hfold, hm]
      cases hd : issueDatesOf txs k with
      | nil => exact absurd hd hne
      | cons d ds =>
        have hle : strLe d "" = true := by
          have := hub d (by rw [hd]; exact List.mem_cons_self d ds)
          rwa [hm] at this
        have : d = "" := strLe_antisymm hle (strLe_empty d)
        rw [← this]
        exact List.mem_cons_self d ds
    · rw [hfold]
      exact hm
  · intro d hd
    rw [hfold]
    exact hub d hd

/-- Witness for C4: the spec's example ledger, whose aggregate has
last_issue_at 2024-01-10. -/
theorem spec_C4_witness :
    jsMapGet (byKey txs6) "H1__X" = some a6 ∧
      ((a6.lastIssueAt, a6.lastIssueNote) = (issuePairsOf txs6 "H1__X").foldl issStep ("", "")) ∧
      (a6.lastIssueAt ∈ issueDatesOf txs6 "H1__X"
        ∧ ∀ d ∈ issueDatesOf txs6 "H1__X", strLe d a6.lastIssueAt = true) :=
  ⟨by with_unfolding_all rfl,
    (spec_C4 txs6 "H1__X" a6 (by with_unfolding_all rfl)).1,
    (spec_C4 txs6 "H1__X" a6 (by with_unfolding_all rfl)).2 (by decide)⟩

/-! Part: claim C5 (non-negativity filter) -/

/-- Claim C5: an aggregated allocation with non-positive net quantity is
present in the full per-key map (the full-history data) but its
decorated row never appears in the displayed rowsOut, whose rows all
carry strictly positive quantity. -/
theorem spec_C5 (emps : List Employee2) (items : List GeneralItem)
    (txs : List GeneralTxRow) (k : String) (a : AllocEntry)
    (h : jsMapGet (byKey txs) k = some a) (hq : a.qty ≤ 0) :
    a ∈ (byKey txs).map Prod.snd ∧
      decorate (empById emps) (itemByCode items) a ∉ rowsOutSorted emps items txs := by
  refine ⟨jsMapGet_mem h, ?_⟩
  intro hmem
  rw [rowsOutSorted, List.mem_insertionSort] at hmem
  unfold rowsOut at hmem
  rcases List.mem_map.mp hmem with ⟨v, hv, hdec⟩
  have hpos : 0 < v.qty := by
    have := List.of_mem_filter hv
    simpa using this
  have hqeq : v.qty = a.qty :=
    congrArg GeneralAllocationRow.quantity hdec
  rw [hqeq] at hpos
  exact absurd hq (not_le.mpr hpos)

/-- Witness for C5: a ledger netting to -3 for its only key. -/
theorem spec_C5_witness :
    jsMapGet (byKey txsW5) "e__i" = some a5 ∧ a5.qty ≤ 0 ∧
      (a5 ∈ (byKey txsW5).map Prod.snd ∧
        decorate (empById []) (itemByCode []) a5 ∉ rowsOutSorted [] [] txsW5) :=
  ⟨by with_unfolding_all rfl, by decide,
    spec_C5 [] [] txsW5 "e__i" a5 (by with_unfolding_all rfl) (by decide)⟩

/-! Part: claim C8 (the Transaction Normalizer rejection rule) -/

/-- The rejection rule of the claim, as a proposition on a raw record:
uppercased action ISSUE or RETURN, holder id and item code non-empty
after trimming, and quantity a finite number strictly greater than 0. -/
theorem keptTx_iff (t : GeneralTxRow) :
    keptTx t = true ↔
      ((txAction t = "ISSUE" ∨ txAction t = "RETURN") ∧ txEid t ≠ "" ∧ txCode t ≠ ""
        ∧ ∃ q : ℚ, txQty t = JSNum.fin q ∧ 0 < q) := by
  unfold keptTx
  cases hq : txQty t with
  | fin q =>
    simp [JSNum.isFinite, jsLe, hq, not_le, and_assoc]
  | nan => simp [JSNum.isFinite, jsLe]
  | posInf => simp [JSNum.isFinite, jsLe]
  | negInf => simp [JSNum.isFinite, jsLe]

/-- Claim C8: a raw general-inventory transaction changes the ledger
accumulator if and only if the rejection rule accepts it; a rejected
record leaves the accumulator untouched (it is silently dropped - the
step is total, no error path exists). -/
theorem spec_C8 (m : JsMap) (t : GeneralTxRow) :
    stepTx m t ≠ m ↔
      ((txAction t = "ISSUE" ∨ txAction t = "RETURN") ∧ txEid t ≠ "" ∧ txCode t ≠ ""
        ∧ ∃ q : ℚ, txQty t = JSNum.fin q ∧ 0 < q) := by
  rw [← keptTx_iff]
  constructor
  · intro hne
    by_contra hk
    have : keptTx t = false := by simpa using hk
    exact hne (by simp [stepTx, this])
  · intro hk heq
    have hsigned : signedQty t ≠ 0 := by
      rcases (keptTx_iff t).mp hk with ⟨_, _, _, q, hq, hqpos⟩
      unfold signedQty
      rw [hq]
      split
      · simpa [JSNum.toRat] using ne_of_gt hqpos
      · simpa [JSNum.toRat] using neg_ne_zero.mpr (ne_of_gt hqpos)
    have hget : jsMapGet (stepTx m t) (txKey t) =
        some (applyTx ((jsMapGet m (txKey t)).getD (emptyAlloc (txEid t) (txCode t))) t) := by
      simp [stepTx, hk, jsMapGet_set]
    rw [heq] at hget
    cases hmk : jsMapGet m (txKey t) with
    | none => rw [hmk] at hget; exact Option.noConfusion hget
    | some a =>
      rw [hmk] at hget
      have ha : a = applyTx a t := by
        have := Option.some_inj.mp hget
        simpa [hmk] using this
      have : a.qty = a.qty + signedQty t := by
        conv_lhs => rw [ha]
        rw [applyTx_qty]
      have : signedQty t = 0 := by linarith [this]
      exact hsigned this

/-! Part: claim C3 (fetch-failure handling) -/

/-- Claim C3, counterexample: after a failed reconciliation the
restricted transaction list is not reset - the stale value from the
previous successful load survives (the catch block of lines 186-193
resets only employees, restrictedIssued and generalRows). -/
theorem spec_C3_cex : (load prevW none).restrictedTx ≠ [] := by decide

/-- Claim C3 as amended: when any upstream fetch fails, exactly one
error notification is raised and the employee list, restricted issued
inventory and general allocation rows are reset to empty, while the
restricted transaction list keeps its previous value (it is not reset). -/
theorem spec_C3 (prev : PageState) :
    load prev none =
      { employees := [], restrictedIssued := [], generalRows := [],
        restrictedTx := prev.restrictedTx, errorCount := prev.errorCount + 1 } := rfl

/-! Part: claim C10 (payroll KPI partition) -/

theorem payrollPaid_aux (rows : List PayrollRow) : ∀ c : ℚ,
    rows.foldl (fun a r => if rowStatus r ≠ "paid" then a else a + r.net_pay.getD 0) c =
      c + ((rows.filter (fun r => rowStatus r == "paid")).map (fun r => r.net_pay.getD 0)).sum := by
  induction rows with
  | nil => intro c; simp
  | cons r l ih =>
    intro c
    simp only [List.foldl_cons, List.filter_cons]
    by_cases h : rowStatus r = "paid"
    · rw [if_neg (by simpa using h), if_pos (by simpa using h)]
      simp only [List.map_cons, List.sum_cons]
      rw [ih]
      ring
    · rw [if_pos (by simpa using h), if_neg (by simpa using h)]
      exact ih c

theorem payrollDue_aux (rows : List PayrollRow) : ∀ c : ℚ,
    rows.foldl (fun a r => if rowStatus r = "paid" then a else a + r.net_pay.getD 0) c =
      c + ((rows.filter (fun r => !(rowStatus r == "paid"))).map
        (fun r => r.net_pay.getD 0)).sum := by
  induction rows with
  | nil => intro c; simp
  | cons r l ih =>
    intro c
    simp only [List.foldl_cons, List.filter_cons]
    by_cases h : rowStatus r = "paid"
    · rw [if_pos h, if_neg (by simpa using h)]
      exact ih c
    · rw [if_neg h, if_pos (by simpa using h)]
      simp only [List.map_cons, List.sum_cons]
      rw [ih]
      ring

theorem sum_filter_split (rows : List PayrollRow) :
    ((rows.filter (fun r => rowStatus r == "paid")).map (fun r => r.net_pay.getD 0)).sum
      + ((rows.filter (fun r => !(rowStatus r == "paid"))).map
          (fun r => r.net_pay.getD 0)).sum
      = (rows.map (fun r => r.net_pay.getD 0)).sum := by
  induction rows with
  | nil => simp
  | cons r l ih =>
    simp only [List.filter_cons, List.map_cons, List.sum_cons]
    by_cases h : rowStatus r = "paid"
    · rw [if_pos (by simpa using h), if_neg (by simpa using h)]
      simp only [List.map_cons, List.sum_cons]
      rw [← ih]
      ring
    · rw [if_neg (by simpa using h), if_pos (by simpa using h)]
      simp only [List.map_cons, List.sum_cons]
      rw [← ih]
      ring

/-- Claim C10: the dashboard payroll KPIs partition net pay exactly: a
row contributes its net_pay (0 when absent) to payrollPaid iff its
paid_status - "unpaid" when missing - lowercases to "paid", otherwise to
payrollDue, and the two sums add up to the total net pay of all rows. -/
theorem spec_C10 (rows : List PayrollRow) :
    payrollPaid rows =
      ((rows.filter (fun r => strLower (r.paid_status.getD "unpaid") == "paid")).map
        (fun r => r.net_pay.getD 0)).sum
    ∧ payrollDue rows =
      ((rows.filter (fun r => !(strLower (r.paid_status.getD "unpaid") == "paid"))).map
        (fun r => r.net_pay.getD 0)).sum
    ∧ payrollPaid rows + payrollDue rows = (rows.map (fun r => r.net_pay.getD 0)).sum := by
  have h1 : payrollPaid rows =
      ((rows.filter (fun r => rowStatus r == "paid")).map (fun r => r.net_pay.getD 0)).sum := by
    have := payrollPaid_aux rows 0
    simpa [payrollPaid] using this
  have h2 : payrollDue rows =
      ((rows.filter (fun r => !(rowStatus r == "paid"))).map
        (fun r => r.net_pay.getD 0)).sum := by
    have := payrollDue_aux rows 0
    simpa [payrollDue] using this
  refine ⟨h1, h2, ?_⟩
  rw [h1, h2]
  exact sum_filter_split rows

/-! Part: claim C2 (fail-open time windowing) -/

theorem inRange_of_parse_none {parse : String → Option Int} {start stop : Option Int}
    {ts : String} (h : parse ts = none) : inRange parse start stop ts = true := by
  unfold inRange
  split
  · rfl
  · rw [h]

/-- Claim C2, counterexample: a restricted quantity item whose
last-issue timestamp is absent (no restricted ISSUE transaction matches
its key, so the lookup yields none) is excluded by the quantity-item
filter as soon as a window bound is set - the !lastIssueAt branch of
line 286 returns false, fail-closed, not fail-open as claimed. -/
theorem spec_C2_cex :
    (restrictedMaps []).2 ("E" ++ "__" ++ qtyItemW.item_code) = none ∧
      [qtyItemW].filter
        (qtyItemVisible parseYMD (some 0) none (restrictedMaps []).2 "E") = [] :=
  ⟨rfl, by decide⟩

/-- Claim C2 as amended: the fail-open default holds for serialized
items and general allocation rows (an unparseable or empty effective
created_at never excludes them, under any window), and for restricted
quantity items whose looked-up last-issue timestamp is present and
non-empty but unparseable; a restricted quantity item whose last-issue
timestamp is absent or empty is excluded whenever a window is active
(see the counterexample). -/
theorem spec_C2 (parse : String → Option Int) (start stop : Option Int)
    (lastBySerial : Int → Option String) (lastByQty : String → Option String)
    (eid : String) :
    (∀ (base : List RestrictedIssuedSerialRow), ∀ s ∈ base,
        parse ((effSerial lastBySerial s).created_at) = none →
          effSerial lastBySerial s ∈ serialItemsF lastBySerial parse start stop base)
    ∧ (∀ (gl : List GeneralAllocationRow), ∀ r ∈ gl,
        parse r.created_at = none →
          r ∈ gl.filter (fun r => inRange parse start stop r.created_at))
    ∧ (∀ (qbase : List RestrictedIssuedQtyRow), ∀ it ∈ qbase, ∀ s,
        lastByQty (eid ++ "__" ++ it.item_code) = some s → s ≠ "" → parse s = none →
          it ∈ qbase.filter (qtyItemVisible parse start stop lastByQty eid)) := by
  refine ⟨?_, ?_, ?_⟩
  · intro base s hs hp
    unfold serialItemsF
    exact List.mem_filter.mpr
      ⟨List.mem_map.mpr ⟨s, hs, rfl⟩, inRange_of_parse_none hp⟩
  · intro gl r hr hp
    exact List.mem_filter.mpr ⟨hr, inRange_of_parse_none hp⟩
  · intro qbase it hit s hm hs hp
    refine List.mem_filter.mpr ⟨hit, ?_⟩
    unfold qtyItemVisible
    split
    · rfl
    · rw [hm]
      show (if s = "" then false else inRange parse start stop s) = true
      rw [if_neg hs]
      exact inRange_of_parse_none hp

/-- Witness for C2 at concrete data: a serialized item with an
unparseable timestamp, a general row with an unparseable timestamp, and
a quantity item whose last-issue lookup yields the non-empty
unparseable string zz, all visible under the window starting at 5. -/
theorem spec_C2_witness :
    effSerial (fun _ => none) serialW
        ∈ serialItemsF (fun _ => none) parseYMD (some 5) none [serialW]
    ∧ genRowW ∈ [genRowW].filter (fun r => inRange parseYMD (some 5) none r.created_at)
    ∧ qtyItemW ∈ [qtyItemW].filter
        (qtyItemVisible parseYMD (some 5) none (fun _ => some "zz") "E") :=
  ⟨(spec_C2 parseYMD (some 5) none (fun _ => none) (fun _ => some "zz") "E").1
      [serialW] serialW (by decide) (by decide),
    (spec_C2 parseYMD (some 5) none (fun _ => none) (fun _ => some "zz") "E").2.1
      [genRowW] genRowW (by decide) (by decide),
    (spec_C2 parseYMD (some 5) none (fun _ => none) (fun _ => some "zz") "E").2.2
      [qtyItemW] qtyItemW (by decide) "zz" (by decide) (by decide) (by decide)⟩

/-! Part: membership structure of the byEmployee merge -/

theorem mem_addUnique (l : List String) (y x : String) :
    x ∈ addUnique l y ↔ x ∈ l ∨ x = y := by
  unfold addUnique
  split
  case isTrue h =>
    constructor
    · exact Or.inl
    · rintro (hx | rfl)
      · exact hx
      · exact h
  case isFalse h => simp

theorem mem_foldl_addUnique {α : Type} (f : α → String) :
    ∀ (l : List α) (init : List String) (x : String),
      x ∈ l.foldl (fun s e => addUnique s (f e)) init ↔ x ∈ init ∨ ∃ e ∈ l, f e = x := by
  intro l
  induction l with
  | nil => intro init x; simp
  | cons e es ih =>
    intro init x
    simp only [List.foldl_cons]
    rw [ih, mem_addUnique]
    constructor
    · rintro ((hx | rfl) | ⟨e', he', rfl⟩)
      · exact Or.inl hx
      · exact Or.inr ⟨e, List.mem_cons_self e es, rfl⟩
      · exact Or.inr ⟨e', List.mem_cons_of_mem e he', rfl⟩
    · rintro (hx | ⟨e', he', rfl⟩)
      · exact Or.inl (Or.inl hx)
      · rcases List.mem_cons.mp he' with rfl | he''
        · exact Or.inl (Or.inr rfl)
        · exact Or.inr ⟨e', he'', rfl⟩

theorem allIds_mem (emps : List Employee2) (ri : List RestrictedIssuedInventory)
    (gr : List GeneralAllocationRow) (x : String) :
    x ∈ allIds emps ri gr ↔
      ((∃ e ∈ emps, empId e = x) ∨ (∃ r ∈ ri, r.employee_id = x)
        ∨ (∃ r ∈ gr, r.employee_id = x)) := by
  unfold allIds
  rw [mem_foldl_addUnique, mem_foldl_addUnique, mem_foldl_addUnique]
  simp only [List.not_mem_nil, false_or]
  exact or_assoc

theorem buildEntry_id (nameById serialById : String → Option String)
    (riM : String → Option RestrictedIssuedInventory)
    (lastBySerial : Int → Option String) (lastByQty : String → Option String)
    (genM : String → List GeneralAllocationRow)
    (parse : String → Option Int) (start stop : Option Int) (eid : String) :
    (buildEntry nameById serialById riM lastBySerial lastByQty genM parse start stop
      eid).employee_id = eid := rfl

theorem byEmployee_default (emps : List Employee2) (ri : List RestrictedIssuedInventory)
    (gr : List GeneralAllocationRow) (rtx : List RestrictedTxRow)
    (parse : String → Option Int) (lc : String → String → Int) :
    byEmployee emps ri gr rtx "" none none parse lc =
      List.insertionSort (fun a b => empCmp lc a b ≤ 0)
        ((allIds emps ri gr).map
          (buildEntry (empNameById emps) (empSerialNoById emps) (riMap ri)
            (restrictedMaps rtx).1 (restrictedMaps rtx).2 (generalMap gr) parse none none)) := by
  unfold byEmployee
  dsimp only
  have h1 : ∀ (l : List EmpEntry),
      l.filter (fun g => if (none : Option Int) = none ∧ (none : Option Int) = none
        then true else decide (0 < g._totalCount)) = l := by
    intro l
    apply List.filter_eq_self.mpr
    intro g _
    simp
  have hq : strLower (strTrim "") = "" := rfl
  have h2 : ∀ (l : List EmpEntry), l.filter (searchKeep (strLower (strTrim ""))) = l := by
    intro l
    apply List.filter_eq_self.mpr
    intro g _
    rw [hq]
    rfl
  rw [h1, h2]

theorem byEmployee_default_ids (emps : List Employee2) (ri : List RestrictedIssuedInventory)
    (gr : List GeneralAllocationRow) (rtx : List RestrictedTxRow)
    (parse : String → Option Int) (lc : String → String → Int) (x : String) :
    (∃ g ∈ byEmployee emps ri gr rtx "" none none parse lc, g.employee_id = x)
      ↔ x ∈ allIds emps ri gr := by
  rw [byEmployee_default]
  constructor
  · rintro ⟨g, hg, hid⟩
    rw [List.mem_insertionSort] at hg
    rcases List.mem_map.mp hg with ⟨eid, heid, rfl⟩
    rw [buildEntry_id] at hid
    rw [← hid]
    exact heid
  · intro hx
    refine ⟨_, ?_, buildEntry_id (empNameById emps) (empSerialNoById emps) (riMap ri)
      (restrictedMaps rtx).1 (restrictedMaps rtx).2 (generalMap gr) parse none none x⟩
    rw [List.mem_insertionSort]
    exact List.mem_map_of_mem _ hx

theorem byEmployee_window_count {emps : List Employee2} {ri : List RestrictedIssuedInventory}
    {gr : List GeneralAllocationRow} {rtx : List RestrictedTxRow} {search : String}
    {start stop : Option Int} {parse : String → Option Int} {lc : String → String → Int}
    (hw : start ≠ none ∨ stop ≠ none) :
    ∀ g ∈ byEmployee emps ri gr rtx search start stop parse lc, 0 < g._totalCount := by
  intro g hg
  unfold byEmployee at hg
  rw [List.mem_insertionSort] at hg
  have hg' := List.mem_of_mem_filter hg
  have hpred := List.of_mem_filter hg'
  have hnw : ¬(start = none ∧ stop = none) := by
    rcases hw with hw | hw
    · exact fun hh => hw hh.1
    · exact fun hh => hw hh.2
  rw [if_neg hnw] at hpred
  exact of_decide_eq_true hpred

/-! Part: claim C6 (holder-set union) -/

/-- Claim C6: under the default view (no date window, empty search), the
merged output contains exactly the union of holder identities from the
employee reference list (under the three-field identity resolution), the
restricted issued source and the general allocation rows. -/
theorem spec_C6 (emps : List Employee2) (ri : List RestrictedIssuedInventory)
    (gr : List GeneralAllocationRow) (rtx : List RestrictedTxRow)
    (parse : String → Option Int) (lc : String → String → Int) (x : String) :
    (∃ g ∈ byEmployee emps ri gr rtx "" none none parse lc, g.employee_id = x)
      ↔ ((∃ e ∈ emps, empId e = x) ∨ (∃ r ∈ ri, r.employee_id = x)
          ∨ (∃ r ∈ gr, r.employee_id = x)) := by
  rw [byEmployee_default_ids]
  exact allIds_mem emps ri gr x

/-! Part: claim C7 (zero-item holders and the window filter) -/

/-- Claim C7: a holder with zero items is retained exactly when no
window is active: under the default view every holder of the three-way
union appears (zero items or not), while under any active window bound
every holder of the output has a strictly positive post-filter total, so
zero-total holders are pruned. -/
theorem spec_C7 (emps : List Employee2) (ri : List RestrictedIssuedInventory)
    (gr : List GeneralAllocationRow) (rtx : List RestrictedTxRow)
    (parse : String → Option Int) (lc : String → String → Int) :
    (∀ x, ((∃ e ∈ emps, empId e = x) ∨ (∃ r ∈ ri, r.employee_id = x)
        ∨ (∃ r ∈ gr, r.employee_id = x)) →
        ∃ g ∈ byEmployee emps ri gr rtx "" none none parse lc, g.employee_id = x)
    ∧ (∀ (search : String) (start stop : Option Int), (start ≠ none ∨ stop ≠ none) →
        ∀ g ∈ byEmployee emps ri gr rtx search start stop parse lc, 0 < g._totalCount) := by
  constructor
  · intro x hx
    rw [byEmployee_default_ids]
    exact (allIds_mem emps ri gr x).mpr hx
  · intro search start stop hw
    exact byEmployee_window_count hw

/-- Witness for C7: a single-employee reference list; under the default
view the employee (with zero items) appears; under the window starting
at day 0 every emitted holder has a positive total. -/
theorem spec_C7_witness :
    (∃ g ∈ byEmployee empsW [] [] [] "" none none parseYMD ciCompare,
        g.employee_id = "F1")
    ∧ (∀ g ∈ byEmployee empsW [] [] [] "" (some 0) none parseYMD ciCompare,
        0 < g._totalCount) :=
  ⟨(spec_C7 empsW [] [] [] parseYMD ciCompare).1 "F1" (by decide),
    (spec_C7 empsW [] [] [] parseYMD ciCompare).2 "" (some 0) none (by decide)⟩

/-! Part: claim C9 (the holder sort order) -/

theorem strLe_total (s t : String) : strLe s t = true ∨ strLe t s = true := by
  by_cases h : strLt t s = true
  · exact Or.inr (strLe_of_lt h)
  · exact Or.inl (by simpa [strLe] using h)

theorem ciCompare_le_iff (s t : String) :
    ciCompare s t ≤ 0 ↔ strLe (strLower s) (strLower t) = true := by
  unfold ciCompare
  by_cases h1 : strLt (strLower s) (strLower t) = true
  · simp [h1, strLe_of_lt h1]
  · rw [if_neg h1]
    by_cases h2 : strLt (strLower t) (strLower s) = true
    · simp only [h2, if_true]
      constructor
      · intro hh; omega
      · intro hh
        simp only [strLe, Bool.not_eq_true'] at hh
        rw [hh] at h2
        exact absurd h2 (by simp)
    · simp only [h2, if_false]
      have : strLe (strLower s) (strLower t) = true := by
        simpa [strLe] using h2
      simp [this]

theorem ciCompare_total (x y : String) : ciCompare x y ≤ 0 ∨ ciCompare y x ≤ 0 := by
  rw [ciCompare_le_iff, ciCompare_le_iff]
  exact strLe_total (strLower x) (strLower y)

theorem ciCompare_trans (x y z : String) (h₁ : ciCompare x y ≤ 0) (h₂ : ciCompare y z ≤ 0) :
    ciCompare x z ≤ 0 := by
  rw [ciCompare_le_iff] at h₁ h₂ ⊢
  exact strLe_trans h₁ h₂

theorem empCmp_le_total (lc : String → String → Int)
    (hTot : ∀ x y, lc x y ≤ 0 ∨ lc y x ≤ 0) (a b : EmpEntry) :
    empCmp lc a b ≤ 0 ∨ empCmp lc b a ≤ 0 := by
  unfold empCmp
  cases parseIntJS a.serial_no with
  | none =>
    cases parseIntJS b.serial_no with
    | none =>
      dsimp only
      exact hTot a.employee_name b.employee_name
    | some y => dsimp only; omega
  | some x =>
    cases parseIntJS b.serial_no with
    | none => dsimp only; omega
    | some y => dsimp only; omega

theorem empCmp_le_trans (lc : String → String → Int)
    (hTrans : ∀ x y z, lc x y ≤ 0 → lc y z ≤ 0 → lc x z ≤ 0) (a b c : EmpEntry)
    (h₁ : empCmp lc a b ≤ 0) (h₂ : empCmp lc b c ≤ 0) : empCmp lc a c ≤ 0 := by
  unfold empCmp at h₁ h₂ ⊢
  revert h₁ h₂
  rcases parseIntJS a.serial_no with _ | x <;>
    rcases parseIntJS b.serial_no with _ | y <;>
      rcases parseIntJS c.serial_no with _ | z <;>
        dsimp only <;> intro h₁ h₂ <;>
          first
          | omega
          | exact hTrans _ _ _ h₁ h₂

/-- Claim C9: for every input and window, the merged output is totally
ordered as claimed: ascending by the parsed numeric serial identifier
when both sides parse, numeric identifiers before non-numeric ones, and
otherwise by the (locale) name collation lc; lc is assumed total and
transitive on its comparison results, as the case-insensitive
lexicographic comparison of the claim is. -/
theorem spec_C9 (lc : String → String → Int)
    (hTot : ∀ x y, lc x y ≤ 0 ∨ lc y x ≤ 0)
    (hTrans : ∀ x y z, lc x y ≤ 0 → lc y z ≤ 0 → lc x z ≤ 0)
    (emps : List Employee2) (ri : List RestrictedIssuedInventory)
    (gr : List GeneralAllocationRow) (rtx : List RestrictedTxRow)
    (search : String) (start stop : Option Int) (parse : String → Option Int) :
    List.Pairwise (claimOrder lc)
      (byEmployee emps ri gr rtx search start stop parse lc) := by
  have hs : List.Sorted (fun a b => empCmp lc a b ≤ 0)
      (byEmployee emps ri gr rtx search start stop parse lc) := by
    unfold byEmployee
    letI : IsTotal EmpEntry (fun a b => empCmp lc a b ≤ 0) := ⟨empCmp_le_total lc hTot⟩
    letI : IsTrans EmpEntry (fun a b => empCmp lc a b ≤ 0) := ⟨empCmp_le_trans lc hTrans⟩
    exact List.sorted_insertionSort _ _
  refine hs.imp ?_
  intro a b hab
  unfold empCmp at hab
  unfold claimOrder
  revert hab
  rcases parseIntJS a.serial_no with _ | x <;>
    rcases parseIntJS b.serial_no with _ | y <;>
      dsimp only <;> intro hab
  · exact hab
  · omega
  · trivial
  · omega

/-- Witness for C9: two employees whose serial numbers 10 and 2 sort
numerically under the comparator, with the concrete case-insensitive
collation discharging the totality and transitivity hypotheses. -/
theorem spec_C9_witness :
    List.Pairwise (claimOrder ciCompare)
      (byEmployee empsW9 [] [] [] "" none none parseYMD ciCompare) :=
  spec_C9 ciCompare ciCompare_total ciCompare_trans empsW9 [] [] [] "" none none parseYMD
